import Mathlib

/-!
Verification of the definition-time validation layer of `src/Function.cpp`
(Halide's symbolic-definition engine): the scope-checking pass (`CheckVars`),
the self-reference counter (`CountSelfReferences`), the three definition
operations (`Function::define`, `Function::define_reduction`,
`Function::define_extern`), and the schedule-dimension derivation.

The expression IR, the graph-aware visitor base class, `FunctionContents`
and the reduction-domain type live in headers that are not part of the
repository snapshot; those parts are modelled from the specification
(node kinds: variable with optional parameter binding and optional
reduction-domain tag, call with target identity and call-kind, let-binding,
leaves; traversal keyed by node identity that visits each distinct shared
node once, the recursion into children being performed by the per-kind
visit methods, exactly as `CheckVars::visit(const Call*)` does by invoking
the base visit before its own check).  Pointer identity of shared graph
nodes is represented by an explicit `nodeId : Nat` on every node; sharing
an IR node is represented by reusing its id.  The external CSE and
stochastic-tagging passes are out of scope per the specification (they are
referentially transparent and do not change free-variable sets), so they
are modelled as the identity.
-/

namespace Halide

/-- Scalar types of the IR (the engine only compares types for equality). -/
inductive Ty where
  | i32
  | f32
  | u8
deriving DecidableEq, Repr

/-- Iteration kind of a schedule dimension; definition time always uses
`serial` (`For::Serial` in the source). -/
inductive ForType where
  | serial
  | parallel
  | vectorized
  | unrolled
deriving DecidableEq, Repr

/-- One dimension of a schedule descriptor (`Schedule::Dim`). -/
structure Dim where
  var : String
  for_type : ForType
deriving DecidableEq, Repr

/-- The schedule state a definition operation touches: the loop-dimension
list `dims` and the storage-dimension list `storage_dims`. -/
structure Schedule where
  dims : List Dim
  storage_dims : List String
deriving DecidableEq, Repr

/-- Modelled from the spec: an output-buffer parameter binding,
constructible from `(type, is_buffer, name)`. -/
structure Parameter where
  ty : Ty
  is_buffer : Bool
  name : String
deriving DecidableEq, Repr

/-- Modelled from the spec: an argument of an extern (foreign) definition,
treated as an unexamined handle. -/
structure ExternFuncArgument where
  handle : Nat
deriving DecidableEq, Repr

/-- Modelled from the spec: one reduction-domain variable, a named range. -/
structure ReductionVariable where
  var : String
  min : Int
  extent : Int
deriving DecidableEq, Repr

/-- Modelled from the spec: a reduction domain, an ordered list of named
ranged variables, shared **by identity** (two structurally equal domains
built separately are distinct instances).  The C++ object is shared through
a pointer; `ptrId` stands for that pointer, and `same_as` compares it. -/
structure ReductionDomain where
  ptrId : Nat
  domain : List ReductionVariable
deriving DecidableEq, Repr

/-- Identity comparison of two reduction domains (`same_as`). -/
def ReductionDomain.same_as (a b : ReductionDomain) : Bool :=
  a.ptrId == b.ptrId

/-- Call kind discriminator: a `halide` call recurses into this system; a
`foreign` call is opaque to it (`Call::Halide` versus the other kinds). -/
inductive CallType where
  | halide
  | foreign
deriving DecidableEq, Repr

/-- Modelled from the spec: the expression graph.  Node kinds: a variable
(name, whether a parameter object is attached, optional reduction-domain
tag, type), a call (target name, identity of the target function's contents
if any, call kind, argument list, type), a let binding, an integer literal
leaf, and a generic binary interior node `add` standing for the arithmetic
nodes.  The first field of every constructor is the node's identity
(`nodeId`), standing for the C++ node pointer: the graph-aware visitors key
their visited sets on it. -/
inductive Expr where
  | var : Nat → String → Bool → Option ReductionDomain → Ty → Expr
  | call : Nat → String → Option Nat → CallType → List Expr → Ty → Expr
  | letE : Nat → String → Expr → Expr → Expr
  | intImm : Nat → Int → Expr
  | add : Nat → Expr → Expr → Expr

/-- The node identity (the C++ node pointer). -/
def Expr.nodeId : Expr → Nat
  | .var i _ _ _ _ => i
  | .call i _ _ _ _ _ => i
  | .letE i _ _ _ => i
  | .intImm i _ => i
  | .add i _ _ => i

/-- The type of an expression (`Expr::type()`). -/
def Expr.type : Expr → Ty
  | .var _ _ _ _ t => t
  | .call _ _ _ _ _ t => t
  | .letE _ _ _ b => b.type
  | .intImm _ _ => .i32
  | .add _ a _ => a.type

/-- The error kinds of the definition layer (spec section 7); each stands
for one `assertf`/`assert` site of `Function.cpp`.  `MissingName` is the
"A function needs a name" check, which the spec's error list does not name.
`IndexOutOfBounds` marks the one unchecked vector read of the source,
`pure_args[i]` in `CheckVars::visit(const Call*)`, which is undefined
behaviour in C++ when `i` is out of range. -/
inductive DefErr where
  | AlreadyDefined
  | MissingName
  | MissingPureDefinition
  | ArityMismatch
  | DuplicateArgumentName
  | EmptyArgumentName
  | UnresolvedIdentifier : String → DefErr
  | ConflictingReductionDomain
  | PureDefinitionHasReductionDomain
  | InvalidRecursiveReference
  | CycleAccountingViolation
  | IndexOutOfBounds
deriving DecidableEq, Repr

/-- The mutable state of a `CheckVars` traversal: the single resolved
reduction domain, the stack of let-bound names (`defined_internally`), and
the identity set of already-included nodes of the graph visitor. -/
structure CVState where
  reduction_domain : Option ReductionDomain
  defined_internally : List String
  visited : List Nat
deriving DecidableEq, Repr

/-- The self-call argument check of `CheckVars::visit(const Call*)`: for
each argument position `i` of a call back to the function being defined,
the source reads `pure_args[i]` with no bounds check and, when that slot is
non-empty, requires the argument to be a variable node of that exact name.
`i` is the absolute position of the head of the remaining argument list. -/
def selfCallCheck (pure_args : List String) : List Expr → Nat → Except DefErr Unit
  | [], _ => .ok ()
  | a :: rest, i =>
    match pure_args.get? i with
    | none => .error .IndexOutOfBounds
    | some p =>
      if p = "" then selfCallCheck pure_args rest (i + 1)
      else
        match a with
        | .var _ n _ _ _ =>
            if n = p then selfCallCheck pure_args rest (i + 1)
            else .error .InvalidRecursiveReference
        | _ => .error .InvalidRecursiveReference

mutual

/-- One `accept` of an expression by `CheckVars` (struct at lines 37-100 of
`Function.cpp`): classify every variable, record or reject reduction
domains, and check recursive self-calls.  Children of a call node are
traversed through the graph-aware `include` (visited once per identity, as
`IRGraphVisitor::visit` does); the children of a let are accepted directly,
as `CheckVars::visit(const Let*)` does. -/
def cvVisit (fname : String) (pure_args : List String) : Expr → CVState → Except DefErr CVState
  | .intImm _ _, s => .ok s
  | .var _ n isParam rdom _, s =>
      if isParam then .ok s
      else if s.defined_internally.contains n then .ok s
      else if pure_args.contains n then .ok s
      else
        match rdom with
        | some d =>
            match s.reduction_domain with
            | none => .ok { s with reduction_domain := some d }
            | some d0 =>
                if ReductionDomain.same_as d d0 then .ok s
                else .error .ConflictingReductionDomain
        | none => .error (.UnresolvedIdentifier n)
  | .letE _ n v b, s =>
      match cvVisit fname pure_args v s with
      | .error e => .error e
      | .ok s1 =>
          match cvVisit fname pure_args b { s1 with defined_internally := n :: s1.defined_internally } with
          | .error e => .error e
          | .ok s2 => .ok { s2 with defined_internally := s1.defined_internally }
  | .add _ a b, s =>
      match (if s.visited.contains a.nodeId then .ok s
             else cvVisit fname pure_args a { s with visited := s.visited ++ [a.nodeId] }) with
      | .error e => .error e
      | .ok s1 =>
          if s1.visited.contains b.nodeId then .ok s1
          else cvVisit fname pure_args b { s1 with visited := s1.visited ++ [b.nodeId] }
  | .call _ n _ ct args _, s =>
      match cvIncludeList fname pure_args args s with
      | .error e => .error e
      | .ok s1 =>
          if n = fname ∧ ct = .halide then
            match selfCallCheck pure_args args 0 with
            | .error e => .error e
            | .ok _ => .ok s1
          else .ok s1

/-- Graph-aware inclusion of a list of child expressions: a node whose
identity was already visited is skipped, otherwise it is marked and
visited. -/
def cvIncludeList (fname : String) (pure_args : List String) : List Expr → CVState → Except DefErr CVState
  | [], s => .ok s
  | a :: rest, s =>
      match (if s.visited.contains a.nodeId then .ok s
             else cvVisit fname pure_args a { s with visited := s.visited ++ [a.nodeId] }) with
      | .error e => .error e
      | .ok s1 => cvIncludeList fname pure_args rest s1

end

/-- Accept a list of root expressions in order with one shared `CheckVars`
state (the root of each `accept` call is visited unconditionally, exactly
as in the source, where only children go through `include`). -/
def cvVisitRoots (fname : String) (pure_args : List String) : List Expr → CVState → Except DefErr CVState
  | [], s => .ok s
  | e :: rest, s =>
      match cvVisit fname pure_args e s with
      | .error er => .error er
      | .ok s1 => cvVisitRoots fname pure_args rest s1

/-- Run the scope validator over a definition's expressions and return the
single resolved reduction domain, if any. -/
def checkVars (fname : String) (pure_args : List String) (es : List Expr) :
    Except DefErr (Option ReductionDomain) :=
  match cvVisitRoots fname pure_args es ⟨none, [], []⟩ with
  | .error e => .error e
  | .ok s => .ok s.reduction_domain

/-- State of a `CountSelfReferences` traversal: the set of identities of
call nodes found to target the function, and the visitor's visited set. -/
structure CSRState where
  calls : List Nat
  visited : List Nat
deriving DecidableEq, Repr

/-- One `accept` by `CountSelfReferences` (lines 102-113 of
`Function.cpp`).  Its `visit(const Call*)` override only inserts the call
into the set when the call's target is the very function (`same_as` on the
function's contents) and — unlike `CheckVars::visit(const Call*)` — does
not invoke the base visit, so the traversal never descends into any call
node's arguments.  All other node kinds use the base graph-aware visit,
which includes each child once per identity. -/
def csrVisit (selfId : Nat) : Expr → CSRState → CSRState
  | .var _ _ _ _ _, s => s
  | .intImm _ _, s => s
  | .call i _ fid _ _ _, s =>
      if fid = some selfId then
        if s.calls.contains i then s else { s with calls := s.calls ++ [i] }
      else s
  | .letE _ _ v b, s =>
      let s1 := if s.visited.contains v.nodeId then s
                else csrVisit selfId v { s with visited := s.visited ++ [v.nodeId] }
      if s1.visited.contains b.nodeId then s1
      else csrVisit selfId b { s1 with visited := s1.visited ++ [b.nodeId] }
  | .add _ a b, s =>
      let s1 := if s.visited.contains a.nodeId then s
                else csrVisit selfId a { s with visited := s.visited ++ [a.nodeId] }
      if s1.visited.contains b.nodeId then s1
      else csrVisit selfId b { s1 with visited := s1.visited ++ [b.nodeId] }

/-- Run `CountSelfReferences` over a list of root expressions with one
shared state and return the collected set (as the list of call-node
identities in insertion order). -/
def countSelfReferences (selfId : Nat) (es : List Expr) : List Nat :=
  (es.foldl (fun s e => csrVisit selfId e s) ⟨[], []⟩).calls

/-- An update (reduction) definition as stored on the function
(`ReductionDefinition`): left-hand-side argument expressions, right-hand
side values, the optional reduction domain, and the derived schedule. -/
structure ReductionDefinition where
  args : List Expr
  values : List Expr
  domain : Option ReductionDomain
  schedule : Schedule

/-- The shared contents of a function (`FunctionContents`).  `funcId` is
the identity of this contents object (the C++ allocation address), which
self-referencing call nodes carry as their target; `ref_count` is the
intrusive reference count, an integer the engine manually decrements. -/
structure FunctionContents where
  funcId : Nat
  name : String
  args : List String
  values : List Expr
  output_types : List Ty
  reductions : List ReductionDefinition
  schedule : Schedule
  output_buffers : List Parameter
  extern_function_name : String
  extern_arguments : List ExternFuncArgument
  ref_count : Int

/-- Modelled from the spec: `Function::has_pure_definition` (declared in
the header `Function.h`, which is not in the repository snapshot) — a pure
definition exists when the output-value list is non-empty. -/
def FunctionContents.has_pure_definition (c : FunctionContents) : Bool :=
  !c.values.isEmpty

/-- Modelled from the spec: `Function::has_reduction_definition`. -/
def FunctionContents.has_reduction_definition (c : FunctionContents) : Bool :=
  !c.reductions.isEmpty

/-- Modelled from the spec: `Function::has_extern_definition` — extern
metadata exists when the extern function name is non-empty. -/
def FunctionContents.has_extern_definition (c : FunctionContents) : Bool :=
  !(c.extern_function_name == "")

/-- Modelled from the spec: `Function::dimensions`, the pure argument
count. -/
def FunctionContents.dimensions (c : FunctionContents) : Nat :=
  c.args.length

/-- Modelled from the spec: `unique_name(char)` draws a fresh,
globally-unique name from a process-wide counter.  Only freshness matters
to this layer, so the model makes the counter value recoverable from the
name's length, which gives an injective generator. -/
def unique_name (c : Char) (counter : Nat) : String :=
  String.mk (c :: List.replicate counter '_')

/-- The argument-name validation of `Function::define` (lines 136-153): in
index order, each name must be non-empty and distinct from every earlier
one.  `seen` holds the earlier names. -/
def arg_names_check (seen : List String) : List String → Option DefErr
  | [] => none
  | a :: rest =>
      if a = "" then some .EmptyArgumentName
      else if seen.contains a then some .DuplicateArgumentName
      else arg_names_check (seen ++ [a]) rest

/-- The output-buffer bindings committed for a list of output types: named
after the function, with `.<index>` appended when there are several
outputs (lines 187-193 and 353-359). -/
def output_buffers_for (fname : String) (types : List Ty) : List Parameter :=
  types.enum.map fun p =>
    { ty := p.2, is_buffer := true,
      name := if types.length > 1 then fname ++ "." ++ Nat.repr p.1 else fname }

/-- The pure-argument derivation of `Function::define_reduction` (lines
229-245): position `i` gets the name of `args[i]` when that expression is
a variable node with no parameter attached, no reduction-domain tag, and a
name equal to the pure definition's `i`-th argument name; otherwise the
slot is empty and the whole update is marked not pure.  Returns
`(pure_args, pure)`. -/
def derivePureArgs : List String → List Expr → List String × Bool
  | _, [] => ([], true)
  | pn, a :: rest =>
      let tailRes := derivePureArgs pn.tail rest
      match a with
      | .var _ n isParam rdom _ =>
          if ¬ isParam ∧ rdom = none ∧ n = pn.headD "" then
            (n :: tailRes.1, tailRes.2)
          else ("" :: tailRes.1, false)
      | _ => ("" :: tailRes.1, false)

/-- The manual cycle-breaking loop of `Function::define_reduction` (lines
299-303): one decrement of the reference count per distinct collected
self-call; a decrement that reaches zero is the internal invariant failure
(the error value carries the count at the failing check). -/
def decrement_loop (rc : Int) : Nat → Except Int Int
  | 0 => .ok rc
  | k + 1 =>
      if rc - 1 = 0 then .error (rc - 1)
      else decrement_loop (rc - 1) k

/-- The schedule dimensions derived for an update definition (lines
305-319): the reduction domain's variables first, in domain order, then
the non-empty pure-argument slots, in position order, all serial. -/
def update_dims (rdom : Option ReductionDomain) (pure_args : List String) : List Dim :=
  (match rdom with
   | some d => d.domain.map fun rv => { var := rv.var, for_type := .serial }
   | none => []) ++
  (pure_args.filter (fun p => !(p == ""))).map fun p => { var := p, for_type := .serial }

/-- `Function::define` (lines 120-194), as a function from the current
contents to either `(error kind, contents at the failing assertion)` or
the committed contents.  The external CSE and stochastic-tagging passes
are the identity in this model, so the committed values are the given
ones.  Check order follows the source: extern metadata, name, scope
validation, argument names, the no-reduction-domain assertion, the
already-defined assertion, then the commit. -/
def Function.define (c : FunctionContents) (args : List String) (values : List Expr) :
    Except (DefErr × FunctionContents) FunctionContents :=
  if c.has_extern_definition then .error (.AlreadyDefined, c)
  else if c.name = "" then .error (.MissingName, c)
  else
    match checkVars c.name args values with
    | .error e => .error (e, c)
    | .ok rdom =>
        match arg_names_check [] args with
        | some e => .error (e, c)
        | none =>
            if rdom.isSome then .error (.PureDefinitionHasReductionDomain, c)
            else if !c.values.isEmpty then .error (.AlreadyDefined, c)
            else .ok { c with
              values := values,
              args := args,
              output_types := values.map Expr.type,
              schedule := { c.schedule with
                dims := c.schedule.dims ++ args.map (fun a => { var := a, for_type := .serial }),
                storage_dims := c.schedule.storage_dims ++ args },
              output_buffers := c.output_buffers ++ output_buffers_for c.name (values.map Expr.type) }

/-- `Function::define_reduction` (lines 196-336).  On success it returns
the new contents together with the advisory flag: `true` when the update
has no reduction domain, the self-reference counter collected nothing,
and every position is pure — the non-fatal "completely hides earlier
definitions" warning.  Check order follows the source: name, pure
definition present, argument arity, value arity, value types, pure-arg
derivation, scope validation over the arguments then the values,
self-reference counting, the cycle-breaking decrements, schedule
derivation, advisory, append. -/
def Function.define_reduction (c : FunctionContents) (_args : List Expr) (values : List Expr) :
    Except (DefErr × FunctionContents) (FunctionContents × Bool) :=
  if c.name = "" then .error (.MissingName, c)
  else if c.has_pure_definition = false then .error (.MissingPureDefinition, c)
  else if ¬ _args.length = c.dimensions then .error (.ArityMismatch, c)
  else if ¬ values.length = c.values.length then .error (.ArityMismatch, c)
  else if (c.values.zip values).any (fun p => !(p.1.type == p.2.type)) then .error (.ArityMismatch, c)
  else
    match checkVars c.name (derivePureArgs c.args _args).1 (_args ++ values) with
    | .error e => .error (e, c)
    | .ok rdom =>
        match decrement_loop c.ref_count (countSelfReferences c.funcId (_args ++ values)).length with
        | .error rc => .error (.CycleAccountingViolation, { c with ref_count := rc })
        | .ok rc =>
            .ok ({ c with
                   ref_count := rc
                   reductions := c.reductions ++
                     [{ args := _args, values := values, domain := rdom,
                        schedule := { dims := update_dims rdom (derivePureArgs c.args _args).1,
                                      storage_dims := [] } }] },
                 rdom.isNone && (countSelfReferences c.funcId (_args ++ values)).isEmpty &&
                   (derivePureArgs c.args _args).2)

/-- `Function::define_extern` (lines 338-369): requires no pure, no
reduction and no extern definition yet; commits the extern metadata, the
output types and buffers, and `dims` fresh synthetic argument names (drawn
from the global counter, whose value at entry is `counter`), each of which
is appended to the schedule's storage dimensions — the loop-dimension list
is not touched. -/
def Function.define_extern (c : FunctionContents) (fname : String)
    (eargs : List ExternFuncArgument) (types : List Ty) (dims : Nat) (counter : Nat) :
    Except (DefErr × FunctionContents) FunctionContents :=
  if c.has_pure_definition ∨ c.has_reduction_definition then .error (.AlreadyDefined, c)
  else if c.has_extern_definition then .error (.AlreadyDefined, c)
  else
    let fresh := (List.range dims).map fun i => unique_name 'e' (counter + i)
    .ok { c with
      extern_function_name := fname,
      extern_arguments := eargs,
      output_types := types,
      output_buffers := c.output_buffers ++ output_buffers_for c.name types,
      args := fresh,
      schedule := { c.schedule with storage_dims := c.schedule.storage_dims ++ fresh } }

/-! Specification-side definitions, written from the spec's words, used to
compare the engine's behaviour against the stated properties. -/

mutual

/-- Every self-call node identity in an expression **tree**, in syntactic
order, duplicates included: the call nodes whose target is the function
with contents identity `selfId`, wherever they occur in the graph. -/
def selfCallsIn (selfId : Nat) : Expr → List Nat
  | .var _ _ _ _ _ => []
  | .intImm _ _ => []
  | .call i _ fid _ args _ =>
      (if fid = some selfId then [i] else []) ++ selfCallsInList selfId args
  | .letE _ _ v b => selfCallsIn selfId v ++ selfCallsIn selfId b
  | .add _ a b => selfCallsIn selfId a ++ selfCallsIn selfId b

/-- List version of `selfCallsIn`. -/
def selfCallsInList (selfId : Nat) : List Expr → List Nat
  | [] => []
  | e :: rest => selfCallsIn selfId e ++ selfCallsInList selfId rest

end

/-- The set of distinct call nodes of the given expression graphs whose
target is the function with contents identity `selfId` (each shared node
once): the set the spec says the Self-Reference Counter collects. -/
def allSelfCallNodes (selfId : Nat) (es : List Expr) : List Nat :=
  (selfCallsInList selfId es).dedup

mutual

/-- Every call in the expression whose target is the function being
defined (same name, recursive call kind) supplies at most `bound`
arguments. -/
def callArityOK (fname : String) (bound : Nat) : Expr → Bool
  | .var _ _ _ _ _ => true
  | .intImm _ _ => true
  | .call _ n _ ct args _ =>
      (if n = fname ∧ ct = .halide then decide (args.length ≤ bound) else true)
        && callArityOKList fname bound args
  | .letE _ _ v b => callArityOK fname bound v && callArityOK fname bound b
  | .add _ a b => callArityOK fname bound a && callArityOK fname bound b

/-- List version of `callArityOK`. -/
def callArityOKList (fname : String) (bound : Nat) : List Expr → Bool
  | [] => true
  | e :: rest => callArityOK fname bound e && callArityOKList fname bound rest

end

/-- The spec's condition for a pure position of an update definition: the
left-hand-side expression is a bare variable, not bound to a parameter,
not tagged with a reduction domain, and textually equal to the pure
definition's argument name at that position. -/
def specPureArg (pureName : String) : Expr → Bool
  | .var _ n isParam rdom _ => !isParam && rdom.isNone && (n == pureName)
  | _ => false

/-- The name of a variable node (empty for any other node kind). -/
def Expr.varName : Expr → String
  | .var _ n _ _ _ => n
  | _ => ""

/-- A bare variable node of the given name: what the self-call check
requires at a non-empty pure position. -/
def isVarNamed (p : String) : Expr → Bool
  | .var _ n _ _ _ => n == p
  | _ => false

/-! Concrete instances used by the witnesses and counterexamples. -/

/-- A fresh function contents record named `f`, with no definition yet and
three external holders of its reference count. -/
def c0 : FunctionContents :=
  { funcId := 1, name := "f", args := [], values := [], output_types := [],
    reductions := [], schedule := { dims := [], storage_dims := [] },
    output_buffers := [], extern_function_name := "", extern_arguments := [],
    ref_count := 3 }

/-- The contents of `f` after the pure definition `f(x) = 0`. -/
def cF1 : FunctionContents :=
  { c0 with
    args := ["x"]
    values := [.intImm 10 0]
    output_types := [.i32]
    schedule := { dims := [{ var := "x", for_type := .serial }], storage_dims := ["x"] }
    output_buffers := [{ ty := .i32, is_buffer := true, name := "f" }] }

/-- The contents of `f` after the pure definition `f(x, y) = x + y`. -/
def cF2 : FunctionContents :=
  { c0 with
    args := ["x", "y"]
    values := [.add 10 (.var 11 "x" false none .i32) (.var 12 "y" false none .i32)]
    output_types := [.i32]
    schedule := { dims := [{ var := "x", for_type := .serial },
                           { var := "y", for_type := .serial }],
                  storage_dims := ["x", "y"] }
    output_buffers := [{ ty := .i32, is_buffer := true, name := "f" }] }

/-- The contents of `f` after the pure definition `f(x, i) = 0` (the spec's
schedule-order example, where the update binds `i` to a domain). -/
def cFxi : FunctionContents :=
  { c0 with
    args := ["x", "i"]
    values := [.intImm 10 0]
    output_types := [.i32]
    schedule := { dims := [{ var := "x", for_type := .serial },
                           { var := "i", for_type := .serial }],
                  storage_dims := ["x", "i"] }
    output_buffers := [{ ty := .i32, is_buffer := true, name := "f" }] }

/-- A one-variable reduction domain instance `{i : [0, 10)}`. -/
def rdA : ReductionDomain := { ptrId := 5, domain := [{ var := "i", min := 0, extent := 10 }] }

/-- A second, distinct reduction domain instance `{j : [0, 10)}`. -/
def rdB : ReductionDomain := { ptrId := 6, domain := [{ var := "j", min := 0, extent := 10 }] }

/-! Helper lemmas shared by the claim theorems. -/

/-- A successful run of the cycle-breaking loop subtracts exactly the
number of collected self-references from the count. -/
theorem decrement_loop_ok {rc rc' : Int} {n : Nat} (h : decrement_loop rc n = .ok rc') :
    rc' = rc - n := by
  induction n generalizing rc with
  | zero =>
      simp only [decrement_loop] at h
      cases h
      simp
  | succ k ih =>
      simp only [decrement_loop] at h
      split at h
      · cases h
      · have := ih h
        omega

/-- Anatomy of a successful `Function::define_reduction`: the resolved
domain, the decremented count, the committed contents and the advisory
flag, each in terms of the inputs. -/
theorem define_reduction_ok_shape {c : FunctionContents} {a v : List Expr}
    {c' : FunctionContents} {w : Bool}
    (h : Function.define_reduction c a v = .ok (c', w)) :
    ∃ rdom rc,
      checkVars c.name (derivePureArgs c.args a).1 (a ++ v) = .ok rdom ∧
      decrement_loop c.ref_count (countSelfReferences c.funcId (a ++ v)).length = .ok rc ∧
      c' = { c with
             ref_count := rc
             reductions := c.reductions ++
               [{ args := a, values := v, domain := rdom,
                  schedule := { dims := update_dims rdom (derivePureArgs c.args a).1,
                                storage_dims := [] } }] } ∧
      w = (rdom.isNone && (countSelfReferences c.funcId (a ++ v)).isEmpty &&
            (derivePureArgs c.args a).2) := by
  unfold Function.define_reduction at h
  split at h
  · cases h
  split at h
  · cases h
  split at h
  · cases h
  split at h
  · cases h
  split at h
  · cases h
  split at h
  · cases h
  next rdom heq =>
    split at h
    · cases h
    next rc hdec =>
      refine ⟨rdom, rc, heq, hdec, ?_, ?_⟩
      · exact congrArg Prod.fst (Except.ok.inj h) |>.symm
      · exact congrArg Prod.snd (Except.ok.inj h) |>.symm

/-- C9: for every successful `define_reduction` call, every component of
the committed pure definition is unchanged afterwards — output values,
pure argument names, output types, output-buffer parameters and the pure
definition's schedule dimensions — and the only state modified is the
appended update definition and the reference-count adjustment. -/
theorem C9_define_reduction_frame {c : FunctionContents} {a v : List Expr}
    {c' : FunctionContents} {w : Bool}
    (h : Function.define_reduction c a v = .ok (c', w)) :
    c'.values = c.values ∧ c'.args = c.args ∧ c'.output_types = c.output_types ∧
    c'.output_buffers = c.output_buffers ∧ c'.schedule = c.schedule ∧
    c'.name = c.name ∧ c'.extern_function_name = c.extern_function_name ∧
    c'.extern_arguments = c.extern_arguments ∧ c'.funcId = c.funcId ∧
    (∃ r, c'.reductions = c.reductions ++ [r]) ∧
    (∃ k : Nat, c'.ref_count = c.ref_count - k) := by
  obtain ⟨rdom, rc, _, hdec, hc', _⟩ := define_reduction_ok_shape h
  subst hc'
  refine ⟨rfl, rfl, rfl, rfl, rfl, rfl, rfl, rfl, rfl, ⟨_, rfl⟩,
    ⟨(countSelfReferences c.funcId (a ++ v)).length, ?_⟩⟩
  simpa using decrement_loop_ok hdec

/-- The update definition `f(x) = 7` applied to `cF1` (fully pure, no
domain, no self-reference), and the resulting contents. -/
def c9args : List Expr := [.var 80 "x" false none .i32]

/-- Values of the `f(x) = 7` update. -/
def c9vals : List Expr := [.intImm 81 7]

/-- The contents of `f` after appending the `f(x) = 7` update. -/
def c9upd : FunctionContents :=
  { cF1 with
    ref_count := 3
    reductions := [{ args := c9args, values := c9vals, domain := none,
                     schedule := { dims := [{ var := "x", for_type := .serial }],
                                   storage_dims := [] } }] }

/-- Witness for C9 at the concrete update `f(x) = 7` on `cF1`. -/
theorem C9_define_reduction_frame_witness :
    Function.define_reduction cF1 c9args c9vals = .ok (c9upd, true) ∧
    c9upd.values = cF1.values ∧ c9upd.args = cF1.args ∧
    c9upd.schedule = cF1.schedule ∧ (∃ r, c9upd.reductions = cF1.reductions ++ [r]) := by
  have h : Function.define_reduction cF1 c9args c9vals = .ok (c9upd, true) := rfl
  have hf := C9_define_reduction_frame h
  exact ⟨h, hf.1, hf.2.1, hf.2.2.2.2.1, hf.2.2.2.2.2.2.2.2.2.1⟩

/-- C2: for every successfully added update definition, the update's
schedule dimensions are exactly one serial dimension per reduction-domain
variable, in domain order, followed by one serial dimension per non-empty
pure-argument position, in left-to-right position order. -/
theorem C2_update_schedule_order {c : FunctionContents} {a v : List Expr}
    {c' : FunctionContents} {w : Bool}
    (h : Function.define_reduction c a v = .ok (c', w)) :
    ∃ rdom r,
      checkVars c.name (derivePureArgs c.args a).1 (a ++ v) = .ok rdom ∧
      c'.reductions = c.reductions ++ [r] ∧
      r.schedule.dims =
        ((match rdom with
          | some d => d.domain.map ReductionVariable.var
          | none => []) ++
          (derivePureArgs c.args a).1.filter (fun p => !(p == ""))).map
          (fun nm => { var := nm, for_type := ForType.serial }) := by
  obtain ⟨rdom, rc, hcv, _, hc', _⟩ := define_reduction_ok_shape h
  subst hc'
  refine ⟨rdom, _, hcv, rfl, ?_⟩
  cases rdom with
  | none => simp [update_dims]
  | some d => simp [update_dims, List.map_map, Function.comp]

/-- The spec's schedule-order example: update `f(x, i) = f(x, i) * 2` on
`cFxi`, with `x` pure and `i` bound to the domain `rdA`. -/
def c2args : List Expr :=
  [.var 30 "x" false none .i32, .var 31 "i" false (some rdA) .i32]

/-- Values of the `f(x, i) = f(x, i) * 2` update. -/
def c2vals : List Expr :=
  [.add 33 (.call 32 "f" (some 1) .halide
              [.var 30 "x" false none .i32, .var 31 "i" false (some rdA) .i32] .i32)
           (.intImm 34 2)]

/-- The contents of `f` after appending the domain update (one
self-reference collected, so the count drops from 3 to 2). -/
def c2upd : FunctionContents :=
  { cFxi with
    ref_count := 2
    reductions := [{ args := c2args, values := c2vals, domain := some rdA,
                     schedule := { dims := [{ var := "i", for_type := .serial },
                                            { var := "x", for_type := .serial }],
                                   storage_dims := [] } }] }

/-- Witness for C2 at the spec's example: the derived schedule dimensions
are `[i, x]`, the domain variable strictly before the pure variable. -/
theorem C2_update_schedule_order_witness :
    ∃ rdom r,
      checkVars cFxi.name (derivePureArgs cFxi.args c2args).1 (c2args ++ c2vals) = .ok rdom ∧
      c2upd.reductions = cFxi.reductions ++ [r] ∧
      r.schedule.dims = [{ var := "i", for_type := .serial },
                         { var := "x", for_type := .serial }] := by
  have h : Function.define_reduction cFxi c2args c2vals = .ok (c2upd, false) := rfl
  obtain ⟨rdom, r, h1, h2, h3⟩ := C2_update_schedule_order h
  have hr : rdom = some rdA := by
    have : Except.ok (ε := DefErr) (some rdA) = .ok rdom := by rw [← h1]; rfl
    exact (Except.ok.inj this).symm
  subst hr
  exact ⟨some rdA, r, h1, h2, by rw [h3]; rfl⟩

/-- C7: the "completely hides earlier definitions" advisory is emitted on
a successful update exactly when no reduction domain was resolved, the
self-reference counter collected nothing, and every position is pure; the
advisory is non-fatal — the update is appended and the operation
succeeds. -/
theorem C7_hides_earlier_advisory {c : FunctionContents} {a v : List Expr}
    {c' : FunctionContents} {w : Bool}
    (h : Function.define_reduction c a v = .ok (c', w)) :
    (w = true ↔
      (checkVars c.name (derivePureArgs c.args a).1 (a ++ v) = .ok none ∧
       countSelfReferences c.funcId (a ++ v) = [] ∧
       (derivePureArgs c.args a).2 = true)) ∧
    c'.reductions.length = c.reductions.length + 1 := by
  obtain ⟨rdom, rc, hcv, _, hc', hw⟩ := define_reduction_ok_shape h
  subst hc'
  refine ⟨?_, by simp⟩
  subst hw
  simp only [Bool.and_eq_true, Option.isNone_iff_eq_none, List.isEmpty_iff]
  constructor
  · rintro ⟨⟨h1, h2⟩, h3⟩
    subst h1
    exact ⟨hcv, h2, h3⟩
  · rintro ⟨h1, h2, h3⟩
    rw [hcv] at h1
    exact ⟨⟨Except.ok.inj h1, h2⟩, h3⟩

/-- Witness for C7: the fully pure, domain-free, self-reference-free
update `f(x) = 7` on `cF1` succeeds with the advisory raised. -/
theorem C7_hides_earlier_advisory_witness :
    Function.define_reduction cF1 c9args c9vals = .ok (c9upd, true) ∧
    (checkVars cF1.name (derivePureArgs cF1.args c9args).1 (c9args ++ c9vals) = .ok none ∧
     countSelfReferences cF1.funcId (c9args ++ c9vals) = [] ∧
     (derivePureArgs cF1.args c9args).2 = true) ∧
    c9upd.reductions.length = cF1.reductions.length + 1 := by
  have h : Function.define_reduction cF1 c9args c9vals = .ok (c9upd, true) := rfl
  have hadv := C7_hides_earlier_advisory h
  exact ⟨h, hadv.1.mp rfl, hadv.2⟩

/-- The update `f(x) = g(f(x))`, whose only self-call sits inside the
argument list of the call to `g`: arguments of the update. -/
def c1args : List Expr := [.var 20 "x" false none .i32]

/-- Values of the `f(x) = g(f(x))` update: the self-call node 22 is a
child of the foreign-function call node 21. -/
def c1vals : List Expr :=
  [.call 21 "g" (some 99) .halide
     [.call 22 "f" (some 1) .halide [.var 20 "x" false none .i32] .i32] .i32]

/-- C1, the observed divergence: the update `f(x) = g(f(x))` contains
exactly one distinct call node whose target is `f` (node 22), yet
`CountSelfReferences` — whose call-visit does not descend into call
arguments — collects nothing, so the definition succeeds with the
reference count not decremented at all (and the "hides earlier
definitions" advisory even fires, though a self-reference exists). -/
theorem C1_self_reference_counter_misses_nested_call :
    allSelfCallNodes cF1.funcId (c1args ++ c1vals) = [22] ∧
    countSelfReferences cF1.funcId (c1args ++ c1vals) = [] ∧
    (Function.define_reduction cF1 c1args c1vals).map
      (fun p => (p.1.ref_count, p.1.reductions.length, p.2)) = .ok (3, 1, true) ∧
    cF1.ref_count = 3 :=
  ⟨rfl, rfl, rfl, rfl⟩

/-- A contents record that already carries extern metadata. -/
def cExt : FunctionContents := { c0 with extern_function_name := "ext0" }

/-- C5: lifecycle ordering with no partial mutation — `define` on an
already-defined function always fails with the contents unchanged (and
with `AlreadyDefined` when the inputs are otherwise valid, as in the
concrete third conjunct); `define` on extern metadata fails immediately;
`define_reduction` without a pure definition fails with
`MissingPureDefinition`, contents unchanged. -/
theorem C5_lifecycle_no_partial_mutation :
    (∀ (c : FunctionContents) (args : List String) (values : List Expr),
        ¬ c.values = [] → ∃ e, Function.define c args values = .error (e, c)) ∧
    (∀ (c : FunctionContents) (args : List String) (values : List Expr),
        ¬ c.extern_function_name = "" →
          Function.define c args values = .error (.AlreadyDefined, c)) ∧
    Function.define cF1 ["z"] [.intImm 70 0] = .error (.AlreadyDefined, cF1) ∧
    (∀ (c : FunctionContents) (a v : List Expr),
        ¬ c.name = "" → c.values = [] →
          Function.define_reduction c a v = .error (.MissingPureDefinition, c)) := by
  refine ⟨?_, ?_, rfl, ?_⟩
  · intro c args values hne
    unfold Function.define
    split
    · exact ⟨_, rfl⟩
    split
    · exact ⟨_, rfl⟩
    split
    · exact ⟨_, rfl⟩
    split
    · exact ⟨_, rfl⟩
    split
    · exact ⟨_, rfl⟩
    split
    · exact ⟨_, rfl⟩
    next hemp => exact absurd (by simpa using hemp) hne
  · intro c args values hex
    have hx : c.has_extern_definition = true := by
      simp [FunctionContents.has_extern_definition, hex]
    simp [Function.define, hx]
  · intro c a v hn hv
    have hp : c.has_pure_definition = false := by
      simp [FunctionContents.has_pure_definition, hv]
    simp [Function.define_reduction, hn, hp]

/-- Witness for C5 at concrete inputs: a second pure definition on `cF1`
fails leaving `cF1` as the carried state, `define` on `cExt` fails with
`AlreadyDefined`, and an update on the undefined `c0` fails with
`MissingPureDefinition`. -/
theorem C5_lifecycle_no_partial_mutation_witness :
    (∃ e, Function.define cF1 ["z"] [.intImm 70 0] = .error (e, cF1)) ∧
    Function.define cExt [] [] = .error (.AlreadyDefined, cExt) ∧
    Function.define_reduction c0 [] [] = .error (.MissingPureDefinition, c0) :=
  ⟨C5_lifecycle_no_partial_mutation.1 cF1 ["z"] [.intImm 70 0] (by simp [cF1, c0]),
   C5_lifecycle_no_partial_mutation.2.1 cExt [] [] (by decide),
   C5_lifecycle_no_partial_mutation.2.2.2 c0 [] [] (by decide) rfl⟩

/-- The counter value underlying `unique_name` is recoverable from the
generated name, so the generator is injective: distinct draws are
distinct names. -/
theorem unique_name_inj (ch : Char) : Function.Injective (unique_name ch) := by
  intro m n h
  have h2 : ch :: List.replicate m '_' = ch :: List.replicate n '_' :=
    congrArg String.data h
  simpa using congrArg List.length h2

/-- C8 as amended: a successful `define_extern` with dimensionality
`dims` sets the argument list to `dims` pairwise-distinct fresh synthetic
names and appends exactly those names to the schedule's storage-dimension
list, while the loop-dimension list of the schedule is left untouched
(unlike a pure definition, which extends both lists). -/
theorem C8_extern_args_and_storage {c : FunctionContents} {fn : String}
    {eargs : List ExternFuncArgument} {types : List Ty} {dims counter : Nat}
    {c' : FunctionContents}
    (h : Function.define_extern c fn eargs types dims counter = .ok c') :
    c'.args.length = dims ∧ c'.args.Nodup ∧
    c'.schedule.storage_dims = c.schedule.storage_dims ++ c'.args ∧
    c'.schedule.dims = c.schedule.dims := by
  unfold Function.define_extern at h
  split at h
  · cases h
  split at h
  · cases h
  cases h
  refine ⟨by simp, ?_, rfl, rfl⟩
  simp only []
  refine List.Nodup.map ?_ (List.nodup_range dims)
  intro i j hij
  have := unique_name_inj 'e' hij
  omega

/-- Counterexample to C8 as stated: with dimensionality 2, the committed
schedule's loop-dimension list (the Schedule Descriptor of section 3,
which a pure definition extends by one dimension per argument) stays
empty — its arity is 0, not 2 — even though the argument list does get
the 2 synthetic names. -/
theorem C8_extern_schedule_counterexample :
    ( Function.define_extern c0 "gg" [] [.i32] 2 7).map
        (fun c' => c'.schedule.dims.length) = .ok 0 ∧
    ( Function.define_extern c0 "gg" [] [.i32] 2 7).map
        (fun c' => c'.args.length) = .ok 2 ∧
    ¬ (0 : Nat) = 2 :=
  ⟨rfl, rfl, by decide⟩

/-- Witness for the amended C8 at a concrete extern definition of
dimensionality 2. -/
theorem C8_extern_args_and_storage_witness :
    ∃ c', Function.define_extern c0 "gg" [] [.i32] 2 7 = .ok c' ∧
      c'.args.length = 2 ∧ c'.args.Nodup ∧
      c'.schedule.storage_dims = c0.schedule.storage_dims ++ c'.args ∧
      c'.schedule.dims = c0.schedule.dims := by
  have h : Function.define_extern c0 "gg" [] [.i32] 2 7 =
      .ok { c0 with
            extern_function_name := "gg"
            output_types := [.i32]
            output_buffers := [{ ty := .i32, is_buffer := true, name := "f" }]
            args := [unique_name 'e' 7, unique_name 'e' 8]
            schedule := { dims := [],
                          storage_dims := [unique_name 'e' 7, unique_name 'e' 8] } } := rfl
  exact ⟨_, h, C8_extern_args_and_storage h⟩

/-- C4: resolution of reduction domains during scope validation — a first
domain-tagged variable records its domain, a variable tagged with the
identical instance is accepted, a variable tagged with a distinct instance
is the hard error `ConflictingReductionDomain`; and a pure definition only
succeeds when no domain at all was resolved, failing with
`PureDefinitionHasReductionDomain` otherwise (concrete last conjunct). -/
theorem C4_reduction_domain_resolution :
    (∀ (fname : String) (pa : List String) (i : Nat) (n : String)
        (d : ReductionDomain) (ty : Ty) (s : CVState),
        s.defined_internally.contains n = false → pa.contains n = false →
        s.reduction_domain = none →
        cvVisit fname pa (.var i n false (some d) ty) s =
          .ok { s with reduction_domain := some d }) ∧
    (∀ (fname : String) (pa : List String) (i : Nat) (n : String)
        (d d0 : ReductionDomain) (ty : Ty) (s : CVState),
        s.defined_internally.contains n = false → pa.contains n = false →
        s.reduction_domain = some d0 → d.ptrId = d0.ptrId →
        cvVisit fname pa (.var i n false (some d) ty) s = .ok s) ∧
    (∀ (fname : String) (pa : List String) (i : Nat) (n : String)
        (d d0 : ReductionDomain) (ty : Ty) (s : CVState),
        s.defined_internally.contains n = false → pa.contains n = false →
        s.reduction_domain = some d0 → ¬ d.ptrId = d0.ptrId →
        cvVisit fname pa (.var i n false (some d) ty) s =
          .error .ConflictingReductionDomain) ∧
    (∀ (c : FunctionContents) (args : List String) (values : List Expr)
        (c' : FunctionContents),
        Function.define c args values = .ok c' →
        checkVars c.name args values = .ok none) ∧
    Function.define c0 ["x"] [.var 50 "r" false (some rdA) .i32] =
      .error (.PureDefinitionHasReductionDomain, c0) := by
  refine ⟨?_, ?_, ?_, ?_, rfl⟩
  · intro fname pa i n d ty s h1 h2 h3
    have h1' : ¬ n ∈ s.defined_internally := by simpa using h1
    have h2' : ¬ n ∈ pa := by simpa using h2
    simp [cvVisit, h1', h2', h3]
  · intro fname pa i n d d0 ty s h1 h2 h3 h4
    have h1' : ¬ n ∈ s.defined_internally := by simpa using h1
    have h2' : ¬ n ∈ pa := by simpa using h2
    simp [cvVisit, h1', h2', h3, ReductionDomain.same_as, h4]
  · intro fname pa i n d d0 ty s h1 h2 h3 h4
    have h1' : ¬ n ∈ s.defined_internally := by simpa using h1
    have h2' : ¬ n ∈ pa := by simpa using h2
    simp [cvVisit, h1', h2', h3, ReductionDomain.same_as, h4]
  · intro c args values c' h
    unfold Function.define at h
    split at h
    · cases h
    split at h
    · cases h
    split at h
    · cases h
    next rdom heq =>
      split at h
      · cases h
      split at h
      · cases h
      next hns =>
        rw [heq]
        have : rdom = none := by
          cases rdom with
          | none => rfl
          | some d => simp at hns
        rw [this]

/-- Witness for C4: a fresh domain-tagged variable records `rdA`; a
second reference to the same instance is accepted; a reference to the
distinct instance `rdB` is rejected. -/
theorem C4_reduction_domain_resolution_witness :
    cvVisit "q" ["x"] (.var 7 "ri" false (some rdA) .i32) ⟨none, [], []⟩ =
      .ok ⟨some rdA, [], []⟩ ∧
    cvVisit "q" ["x"] (.var 8 "ri" false (some rdA) .i32) ⟨some rdA, [], []⟩ =
      .ok ⟨some rdA, [], []⟩ ∧
    cvVisit "q" ["x"] (.var 9 "rj" false (some rdB) .i32) ⟨some rdA, [], []⟩ =
      .error .ConflictingReductionDomain :=
  ⟨C4_reduction_domain_resolution.1 "q" ["x"] 7 "ri" rdA .i32 ⟨none, [], []⟩ rfl rfl rfl,
   C4_reduction_domain_resolution.2.1 "q" ["x"] 8 "ri" rdA rdA .i32 ⟨some rdA, [], []⟩
     rfl rfl rfl rfl,
   C4_reduction_domain_resolution.2.2.1 "q" ["x"] 9 "rj" rdB rdA .i32 ⟨some rdA, [], []⟩
     rfl rfl rfl (by decide)⟩

/-- If some argument of a self-call is not the bare variable its non-empty
pure slot demands, the sequential self-call check ends in
`InvalidRecursiveReference` (whatever happens at the other positions);
`k` is the absolute slot position of the head of `args`. -/
theorem selfCallCheck_err_aux (pa : List String) :
    ∀ (args : List Expr) (k i : Nat) (a : Expr) (p : String),
      args.get? i = some a → pa.get? (k + i) = some p → ¬ p = "" →
      isVarNamed p a = false →
      selfCallCheck pa args k = .error .InvalidRecursiveReference := by
  intro args
  induction args with
  | nil =>
      intro k i a p hget _ _ _
      cases hget
  | cons b rest ih =>
      intro k i a p hget hp hpn hvar
      cases i with
      | zero =>
          have hb : b = a := by simpa using hget
          subst hb
          have hp0 : pa.get? k = some p := hp
          have hp1 : pa[k]? = some p := by simpa using hp0
          cases b with
          | var j2 n isP rd ty =>
              have hne : ¬ n = p := by simpa [isVarNamed] using hvar
              simp [selfCallCheck, hp0, hp1, hpn, hne]
          | call c1 c2 c3 c4 c5 c6 => simp [selfCallCheck, hp0, hp1, hpn]
          | letE l1 l2 l3 l4 => simp [selfCallCheck, hp0, hp1, hpn]
          | intImm i1 i2 => simp [selfCallCheck, hp0, hp1, hpn]
          | add a1 a2 a3 => simp [selfCallCheck, hp0, hp1, hpn]
      | succ j =>
          have hrest : rest.get? j = some a := by simpa using hget
          have hp' : pa.get? (k + 1 + j) = some p := by
            rw [show k + 1 + j = k + (j + 1) by omega]
            exact hp
          have hkq : ∃ q, pa.get? k = some q := by
            cases hq : pa.get? k with
            | some q => exact ⟨q, rfl⟩
            | none =>
                have hlen : pa.length ≤ k := by
                  simpa using List.get?_eq_none.mp hq
                have hlt : k + (j + 1) < pa.length := by
                  have := List.get?_eq_some.mp hp
                  exact this.1
                omega
          obtain ⟨q, hq⟩ := hkq
          have hq1 : pa[k]? = some q := by simpa using hq
          simp only [selfCallCheck, hq]
          by_cases hqe : q = ""
          · rw [if_pos hqe]
            exact ih (k + 1) j a p hrest hp' hpn hvar
          · cases b with
            | var j2 n isP rd ty =>
                by_cases hnb : n = q
                · simp only [if_neg hqe, hnb, if_pos]
                  exact ih (k + 1) j a p hrest hp' hpn hvar
                · simp [hq1, hqe, hnb]
            | call c1 c2 c3 c4 c5 c6 => simp [hq1, hqe]
            | letE l1 l2 l3 l4 => simp [hq1, hqe]
            | intImm i1 i2 => simp [hq1, hqe]
            | add a1 a2 a3 => simp [hq1, hqe]

/-- The swapped-order update on `f(x, y)`: arguments `(x, y)` of the
update `f(x, y) = f(y, x)`. -/
def c3args : List Expr := [.var 40 "x" false none .i32, .var 41 "y" false none .i32]

/-- Value of the swapped-order update: the self-call `f(y, x)`. -/
def c3vals : List Expr :=
  [.call 42 "f" (some 1) .halide
     [.var 43 "y" false none .i32, .var 44 "x" false none .i32] .i32]

/-- C3: during scope validation, any argument of a recursive self-call
sitting at a position with a non-empty pure slot that is not a bare
variable of exactly that name makes the check fail with
`InvalidRecursiveReference`; in particular the update whose self-call
swaps the pure arguments (`f(y, x)` against `f(x, y)`) fails end to
end. -/
theorem C3_invalid_recursive_reference :
    (∀ (pa : List String) (args : List Expr) (i : Nat) (a : Expr) (p : String),
        args.get? i = some a → pa.get? i = some p → ¬ p = "" →
        isVarNamed p a = false →
        selfCallCheck pa args 0 = .error .InvalidRecursiveReference) ∧
    Function.define_reduction cF2 c3args c3vals =
      .error (.InvalidRecursiveReference, cF2) := by
  constructor
  · intro pa args i a p h1 h2 h3 h4
    exact selfCallCheck_err_aux pa args 0 i a p h1 (by simpa using h2) h3 h4
  · rfl

/-- Witness for C3: in the swapped self-call `f(y, x)` against pure slots
`[x, y]`, position 0 holds the variable `y` where the slot demands `x`,
and the check rejects. -/
theorem C3_invalid_recursive_reference_witness :
    selfCallCheck ["x", "y"]
      [.var 43 "y" false none .i32, .var 44 "x" false none .i32] 0 =
      .error .InvalidRecursiveReference :=
  C3_invalid_recursive_reference.1 ["x", "y"]
    [.var 43 "y" false none .i32, .var 44 "x" false none .i32] 0
    (.var 43 "y" false none .i32) "x" rfl rfl (by decide) rfl

/-- The default head of a list is its position-0 element with default. -/
theorem headD_eq_getD_zero (l : List String) : l.headD "" = l.getD 0 "" := by
  cases l <;> rfl

/-- Reading the tail at `i` is reading the list at `i + 1`. -/
theorem tail_getD (l : List String) (i : Nat) : l.tail.getD i "" = l.getD (i + 1) "" := by
  cases l <;> simp [List.getD]

/-- The spec's pure-position condition at a variable node, unfolded. -/
theorem specPureArg_var_iff {q : String} {j : Nat} {n : String} {isP : Bool}
    {rd : Option ReductionDomain} {ty : Ty} :
    specPureArg q (.var j n isP rd ty) = true ↔ (¬ isP = true ∧ rd = none ∧ n = q) := by
  simp [specPureArg, Bool.and_eq_true, Option.isNone_iff_eq_none, and_assoc]

/-- Per-position value of the derived pure-argument list: the variable's
name when the spec's pure-position condition holds, the empty string
otherwise. -/
theorem derivePureArgs_get (pn : List String) (args : List Expr) :
    ∀ (i : Nat) (a : Expr), args.get? i = some a →
      (derivePureArgs pn args).1.get? i =
        some (if specPureArg (pn.getD i "") a then a.varName else "") := by
  induction args generalizing pn with
  | nil => intro i a h; cases h
  | cons b rest ih =>
      intro i a h
      cases i with
      | zero =>
          have hb : b = a := by simpa using h
          subst hb
          cases b with
          | var j n isP rd ty =>
              simp only [derivePureArgs]
              by_cases hc : ¬ isP = true ∧ rd = none ∧ n = pn.headD ""
              · rw [if_pos hc]
                have hs : specPureArg (pn.getD 0 "") (.var j n isP rd ty) = true := by
                  rw [specPureArg_var_iff]
                  rwa [headD_eq_getD_zero] at hc
                rw [hs]
                simp [Expr.varName]
              · rw [if_neg hc]
                have hs : specPureArg (pn.getD 0 "") (.var j n isP rd ty) = false := by
                  rw [Bool.eq_false_iff, Ne, specPureArg_var_iff]
                  rwa [headD_eq_getD_zero] at hc
                rw [hs]
                simp
          | call c1 c2 c3 c4 c5 c6 => simp [derivePureArgs, specPureArg]
          | letE l1 l2 l3 l4 => simp [derivePureArgs, specPureArg]
          | intImm i1 i2 => simp [derivePureArgs, specPureArg]
          | add a1 a2 a3 => simp [derivePureArgs, specPureArg]
      | succ m =>
          have hrest : rest.get? m = some a := by simpa using h
          have hstep : (derivePureArgs pn (b :: rest)).1.get? (m + 1) =
              (derivePureArgs pn.tail rest).1.get? m := by
            cases b with
            | var j n isP rd ty =>
                simp only [derivePureArgs]
                split <;> simp
            | call c1 c2 c3 c4 c5 c6 => simp [derivePureArgs]
            | letE l1 l2 l3 l4 => simp [derivePureArgs]
            | intImm i1 i2 => simp [derivePureArgs]
            | add a1 a2 a3 => simp [derivePureArgs]
          rw [hstep, ih pn.tail m a hrest, tail_getD]

/-- The aggregate purity flag is true exactly when the spec's
pure-position condition holds at every position of the argument list. -/
theorem derivePureArgs_pure_iff (pn : List String) (args : List Expr) :
    (derivePureArgs pn args).2 = true ↔
      ∀ (j : Nat) (b : Expr), args.get? j = some b →
        specPureArg (pn.getD j "") b = true := by
  induction args generalizing pn with
  | nil => simp [derivePureArgs]
  | cons b rest ih =>
      cases b with
      | var j2 n isP rd ty =>
          simp only [derivePureArgs]
          by_cases hc : ¬ isP = true ∧ rd = none ∧ n = pn.headD ""
          · rw [if_pos hc]
            have hs : specPureArg (pn.getD 0 "") (.var j2 n isP rd ty) = true := by
              rw [specPureArg_var_iff]
              rwa [headD_eq_getD_zero] at hc
            constructor
            · intro ht m bb hm
              cases m with
              | zero =>
                  have hbb : Expr.var j2 n isP rd ty = bb := by simpa using hm
                  subst hbb
                  exact hs
              | succ m2 =>
                  have hm2 : rest.get? m2 = some bb := by simpa using hm
                  have := (ih pn.tail).mp ht m2 bb hm2
                  rwa [tail_getD] at this
            · intro hall
              apply (ih pn.tail).mpr
              intro m2 bb hm2
              rw [tail_getD]
              exact hall (m2 + 1) bb (by simpa using hm2)
          · rw [if_neg hc]
            have hs : specPureArg (pn.getD 0 "") (.var j2 n isP rd ty) = false := by
              rw [Bool.eq_false_iff, Ne, specPureArg_var_iff]
              rwa [headD_eq_getD_zero] at hc
            constructor
            · intro ht
              simp at ht
            · intro hall
              have := hall 0 (.var j2 n isP rd ty) rfl
              rw [hs] at this
              cases this
      | call c1 c2 c3 c4 c5 c6 =>
          simp only [derivePureArgs]
          constructor
          · intro ht
            simp at ht
          · intro hall
            have := hall 0 (.call c1 c2 c3 c4 c5 c6) rfl
            simp [specPureArg] at this
      | letE l1 l2 l3 l4 =>
          simp only [derivePureArgs]
          constructor
          · intro ht
            simp at ht
          · intro hall
            have := hall 0 (.letE l1 l2 l3 l4) rfl
            simp [specPureArg] at this
      | intImm i1 i2 =>
          simp only [derivePureArgs]
          constructor
          · intro ht
            simp at ht
          · intro hall
            have := hall 0 (.intImm i1 i2) rfl
            simp [specPureArg] at this
      | add a1 a2 a3 =>
          simp only [derivePureArgs]
          constructor
          · intro ht
            simp at ht
          · intro hall
            have := hall 0 (.add a1 a2 a3) rfl
            simp [specPureArg] at this

/-- C6: at every position of an update definition, the derived
pure-argument slot equals the left-hand-side expression's variable name
exactly when that expression is a bare variable, not parameter-bound, not
domain-tagged, and named like the pure definition's argument at that
position — and the empty string in every other case; and the update is
marked pure exactly when this holds at every position. -/
theorem C6_pure_args_derivation :
    (∀ (pn : List String) (args : List Expr) (i : Nat) (a : Expr),
        args.get? i = some a →
        (derivePureArgs pn args).1.get? i =
          some (if specPureArg (pn.getD i "") a then a.varName else "")) ∧
    (∀ (pn : List String) (args : List Expr),
        (derivePureArgs pn args).2 = true ↔
          ∀ (j : Nat) (b : Expr), args.get? j = some b →
            specPureArg (pn.getD j "") b = true) :=
  ⟨derivePureArgs_get, derivePureArgs_pure_iff⟩

/-- Witness for C6: against pure arguments `[x, y]`, the update argument
list `[x, 5]` derives the name `x` at position 0 and the empty slot at
the non-variable position 1, and is marked not pure. -/
theorem C6_pure_args_derivation_witness :
    (derivePureArgs ["x", "y"] [.var 100 "x" false none .i32, .intImm 101 5]).1.get? 0 =
      some "x" ∧
    (derivePureArgs ["x", "y"] [.var 100 "x" false none .i32, .intImm 101 5]).1.get? 1 =
      some "" ∧
    (derivePureArgs ["x", "y"] [.var 100 "x" false none .i32, .intImm 101 5]).2 = false := by
  refine ⟨?_, ?_, rfl⟩
  · have := C6_pure_args_derivation.1 ["x", "y"]
      [.var 100 "x" false none .i32, .intImm 101 5] 0 (.var 100 "x" false none .i32) rfl
    simpa [specPureArg, Expr.varName] using this
  · have := C6_pure_args_derivation.1 ["x", "y"]
      [.var 100 "x" false none .i32, .intImm 101 5] 1 (.intImm 101 5) rfl
    simpa [specPureArg] using this

/-- The sequential self-call check never reads past the end of the
pure-argument list when the remaining positions fit inside it. -/
theorem selfCallCheck_no_oob (pa : List String) :
    ∀ (args : List Expr) (k : Nat), k + args.length ≤ pa.length →
      ¬ selfCallCheck pa args k = .error .IndexOutOfBounds := by
  intro args
  induction args with
  | nil =>
      intro k _ h
      simp [selfCallCheck] at h
  | cons b rest ih =>
      intro k hk
      have hklt : k < pa.length := by
        simp only [List.length_cons] at hk
        omega
      have hq : ∃ q, pa.get? k = some q := by
        cases hg : pa.get? k with
        | some q => exact ⟨q, rfl⟩
        | none =>
            have := List.get?_eq_none.mp hg
            omega
      obtain ⟨q, hq⟩ := hq
      have hrec : k + 1 + rest.length ≤ pa.length := by
        simp only [List.length_cons] at hk
        omega
      simp only [selfCallCheck, hq]
      by_cases hqe : q = ""
      · rw [if_pos hqe]
        exact ih (k + 1) hrec
      · cases b with
        | var j n isP rd ty =>
            by_cases hnb : n = q
            · simp only [if_neg hqe, hnb, if_pos]
              exact ih (k + 1) hrec
            · simp [hq, hqe, hnb]
        | call c1 c2 c3 c4 c5 c6 => simp [hq, hqe]
        | letE l1 l2 l3 l4 => simp [hq, hqe]
        | intImm i1 i2 => simp [hq, hqe]
        | add a1 a2 a3 => simp [hq, hqe]

/-- The `CheckVars` traversal can only produce `IndexOutOfBounds` from the
self-call check, so it never does when every self-call of the expression
supplies at most as many arguments as there are pure-argument slots. -/
theorem cvVisit_no_oob (fname : String) (pa : List String) :
    ∀ (e : Expr) (s : CVState),
      callArityOK fname pa.length e = true →
      ¬ cvVisit fname pa e s = .error .IndexOutOfBounds := by
  have main := cvVisit.induct fname pa
    (fun e s => callArityOK fname pa.length e = true →
      ¬ cvVisit fname pa e s = .error .IndexOutOfBounds)
    (fun es s => callArityOKList fname pa.length es = true →
      ¬ cvIncludeList fname pa es s = .error .IndexOutOfBounds)
  apply main
  · intro a a1 s _
    simp [cvVisit]
  · intro a n rdom ty s _
    simp [cvVisit]
  · intro a n isP rdom ty s h1 h2 _
    have h2' : n ∈ s.defined_internally := by simpa using h2
    simp [cvVisit, h1, h2']
  · intro a n isP rdom ty s h1 h2 h3 _
    have h2' : ¬ n ∈ s.defined_internally := by simpa using h2
    have h3' : n ∈ pa := by simpa using h3
    simp [cvVisit, h1, h2', h3']
  · intro a n isP ty s h1 h2 h3 d hd _
    have h2' : ¬ n ∈ s.defined_internally := by simpa using h2
    have h3' : ¬ n ∈ pa := by simpa using h3
    simp [cvVisit, h1, h2', h3', hd]
  · intro a n isP ty s h1 h2 h3 d d0 hd hsame _
    have h2' : ¬ n ∈ s.defined_internally := by simpa using h2
    have h3' : ¬ n ∈ pa := by simpa using h3
    simp [cvVisit, h1, h2', h3', hd, hsame]
  · intro a n isP ty s h1 h2 h3 d d0 hd hsame _
    have h2' : ¬ n ∈ s.defined_internally := by simpa using h2
    have h3' : ¬ n ∈ pa := by simpa using h3
    simp [cvVisit, h1, h2', h3', hd, hsame]
  · intro a n isP ty s h1 h2 h3 _
    have h2' : ¬ n ∈ s.defined_internally := by simpa using h2
    have h3' : ¬ n ∈ pa := by simpa using h3
    simp [cvVisit, h1, h2', h3']
  · intro a n v b s e hv ih1 har
    have hav : callArityOK fname pa.length v = true := by
      simp only [callArityOK, Bool.and_eq_true] at har
      exact har.1
    simp only [cvVisit, hv]
    intro heq
    have he : e = DefErr.IndexOutOfBounds := Except.error.inj heq
    subst he
    exact ih1 hav hv
  · intro a n v b s s2 hv e hb ih1 ih2 har
    have hab : callArityOK fname pa.length b = true := by
      simp only [callArityOK, Bool.and_eq_true] at har
      exact har.2
    simp only [cvVisit, hv, hb]
    intro heq
    have he : e = DefErr.IndexOutOfBounds := Except.error.inj heq
    subst he
    exact ih2 hab hb
  · intro a n v b s s2 hv s3 hb ih1 ih2 _
    simp [cvVisit, hv, hb]
  · intro a a1 b s e hif ih1 har
    have haa : callArityOK fname pa.length a1 = true := by
      simp only [callArityOK, Bool.and_eq_true] at har
      exact har.1
    simp only [cvVisit, hif]
    intro heq
    have he : e = DefErr.IndexOutOfBounds := Except.error.inj heq
    subst he
    by_cases hc : s.visited.contains a1.nodeId = true
    · rw [if_pos hc] at hif
      cases hif
    · rw [if_neg hc] at hif
      exact ih1 haa hif
  · intro a a1 b s s2 hif hcb ih1 _
    have hif' : (if a1.nodeId ∈ s.visited then Except.ok s
        else cvVisit fname pa a1
          { s with visited := s.visited ++ [a1.nodeId] }) = Except.ok s2 := by
      simpa using hif
    have hcb' : b.nodeId ∈ s2.visited := by simpa using hcb
    simp [cvVisit, hif', hcb']
  · intro a a1 b s s2 hif hcb ih1 ih2 har
    have hab : callArityOK fname pa.length b = true := by
      simp only [callArityOK, Bool.and_eq_true] at har
      exact har.2
    simp only [cvVisit, hif, hcb]
    simp only [Bool.false_eq_true, if_false]
    exact ih2 hab
  · intro a n a1 ct args ty s e hinc ih2 har
    have hal : callArityOKList fname pa.length args = true := by
      simp only [callArityOK, Bool.and_eq_true] at har
      exact har.2
    simp only [cvVisit, hinc]
    intro heq
    have he : e = DefErr.IndexOutOfBounds := Except.error.inj heq
    subst he
    exact ih2 hal hinc
  · intro a n a1 ct args ty s s2 hinc hcond e hscc ih2 har
    have hlen : args.length ≤ pa.length := by
      simp only [callArityOK, Bool.and_eq_true] at har
      have := har.1
      rw [if_pos hcond] at this
      exact of_decide_eq_true this
    simp only [cvVisit, hinc, if_pos hcond, hscc]
    intro heq
    have he : e = DefErr.IndexOutOfBounds := Except.error.inj heq
    subst he
    exact selfCallCheck_no_oob pa args 0 (by omega) hscc
  · intro a n a1 ct args ty s s2 hinc hcond u hscc ih2 _
    simp [cvVisit, hinc, if_pos hcond, hscc]
  · intro a n a1 ct args ty s s2 hinc hcond ih2 _
    simp [cvVisit, hinc, if_neg hcond]
  · intro s _
    simp [cvIncludeList]
  · intro a rest s e hif ih1 har
    have haa : callArityOK fname pa.length a = true := by
      simp only [callArityOKList, Bool.and_eq_true] at har
      exact har.1
    simp only [cvIncludeList, hif]
    intro heq
    have he : e = DefErr.IndexOutOfBounds := Except.error.inj heq
    subst he
    by_cases hc : s.visited.contains a.nodeId = true
    · rw [if_pos hc] at hif
      cases hif
    · rw [if_neg hc] at hif
      exact ih1 haa hif
  · intro a rest s s1 hif ih1 ih2 har
    have hal : callArityOKList fname pa.length rest = true := by
      simp only [callArityOKList, Bool.and_eq_true] at har
      exact har.2
    simp only [cvIncludeList, hif]
    exact ih2 hal

/-- Accepting a list of root expressions in sequence also never produces
`IndexOutOfBounds` under the same arity precondition. -/
theorem cvVisitRoots_no_oob (fname : String) (pa : List String) :
    ∀ (es : List Expr) (s : CVState),
      (∀ e ∈ es, callArityOK fname pa.length e = true) →
      ¬ cvVisitRoots fname pa es s = .error .IndexOutOfBounds := by
  intro es
  induction es with
  | nil =>
      intro s _ h
      simp [cvVisitRoots] at h
  | cons e rest ih =>
      intro s hall
      cases hv : cvVisit fname pa e s with
      | error er =>
          simp only [cvVisitRoots, hv]
          intro heq
          have : er = DefErr.IndexOutOfBounds := Except.error.inj heq
          subst this
          exact cvVisit_no_oob fname pa e s (hall e (by simp)) hv
      | ok s1 =>
          simp only [cvVisitRoots, hv]
          exact ih s1 (fun x hx => hall x (by simp [hx]))

/-- C10: the self-call check reads `pure_args[i]` for every argument
index of a self-call with no bounds check; when every call back to the
function supplies at most as many arguments as there are pure-argument
slots, every such read is in bounds, so neither the check itself nor a
whole scope-validation pass can reach the out-of-range branch. -/
theorem C10_pure_args_reads_in_bounds :
    (∀ (pa : List String) (args : List Expr),
        args.length ≤ pa.length →
        ¬ selfCallCheck pa args 0 = .error .IndexOutOfBounds) ∧
    (∀ (fname : String) (pa : List String) (es : List Expr),
        (∀ e ∈ es, callArityOK fname pa.length e = true) →
        ¬ checkVars fname pa es = .error .IndexOutOfBounds) := by
  constructor
  · intro pa args h
    exact selfCallCheck_no_oob pa args 0 (by omega)
  · intro fname pa es hall
    unfold checkVars
    cases hv : cvVisitRoots fname pa es ⟨none, [], []⟩ with
    | error er =>
        intro heq
        have her : er = DefErr.IndexOutOfBounds := by
          simpa using heq
        subst her
        exact cvVisitRoots_no_oob fname pa es ⟨none, [], []⟩ hall hv
    | ok s => simp

/-- Witness for C10: a self-call of `f` with a single argument against a
one-slot pure-argument list — in bounds, and the full validation pass
accepts without reaching the out-of-range branch. -/
theorem C10_pure_args_reads_in_bounds_witness :
    ¬ selfCallCheck ["x"] [.var 2 "x" false none .i32] 0 =
        .error .IndexOutOfBounds ∧
    ¬ checkVars "f" ["x"]
        [.call 1 "f" (some 1) .halide [.var 2 "x" false none .i32] .i32] =
        .error .IndexOutOfBounds :=
  ⟨C10_pure_args_reads_in_bounds.1 ["x"] [.var 2 "x" false none .i32] (by decide),
   C10_pure_args_reads_in_bounds.2 "f" ["x"]
     [.call 1 "f" (some 1) .halide [.var 2 "x" false none .i32] .i32] (by decide)⟩

end Halide
